import Mathlib

/-!
Verification of the plan-normalization and entity-resolution pipeline of the
LinearOperationsAgent repository (`src/server/src/linear.ts`,
`src/pages/api/execute.ts`) against its natural-language specification.

The TypeScript functions are shallowly embedded as executable Lean
definitions.  JavaScript strings are modelled as Lean `String`
(a list of characters); JavaScript numbers that the code range-checks as
integers are modelled as `Int`; `undefined`/optional values are modelled
with `Option`; thrown errors are modelled with `Except`.
-/

namespace LinearOps

/-! ### JavaScript character and string primitives -/

/-- Whitespace as matched by JavaScript `\s`, `trim`, restricted to the
ASCII whitespace characters (space, tab, line feed, carriage return,
vertical tab, form feed). -/
def isJsWs (c : Char) : Bool :=
  c = ' ' || c = '\t' || c = '\n' || c = '\r' || c = '\x0b' || c = '\x0c'

/-- `String.prototype.trim` on a character list: drop leading and trailing
whitespace. -/
def trimChars (l : List Char) : List Char :=
  ((l.dropWhile isJsWs).reverse.dropWhile isJsWs).reverse

/-- JavaScript `trim` on strings. -/
def jsTrim (s : String) : String := String.mk (trimChars s.data)

/-- JavaScript `trimStart` on a character list. -/
def trimStartChars (l : List Char) : List Char := l.dropWhile isJsWs

/-- `String.prototype.toLowerCase`, character by character (ASCII). -/
def lowerChars (l : List Char) : List Char := l.map Char.toLower

/-- Helper for `collapseWs`: `prevWs` records whether the previous
character was part of a whitespace run already replaced by one space. -/
def collapseWsAux : Bool → List Char → List Char
  | _, [] => []
  | prevWs, c :: rest =>
    if isJsWs c then
      if prevWs then collapseWsAux true rest
      else ' ' :: collapseWsAux true rest
    else c :: collapseWsAux false rest

/-- JavaScript `replace(/\s+/g, ' ')`: each maximal whitespace run becomes
a single space. -/
def collapseWs (l : List Char) : List Char := collapseWsAux false l

/-- A character kept by `replace(/[^\p{L}\p{N}\s-]/gu, '')`; the Unicode
letter/number classes are modelled by `Char.isAlpha`/`Char.isDigit`. -/
def keepComparableChar (c : Char) : Bool :=
  c.isAlpha || c.isDigit || isJsWs c || c = '-'

/-- Character-list core of `normalizeComparableText`. -/
def normalizeComparableChars (l : List Char) : List Char :=
  (collapseWs (lowerChars (trimChars l))).filter keepComparableChar

/-- `normalizeComparableText` (src/server/src/linear.ts:105-111):
trim, lowercase, collapse whitespace, then drop punctuation other than
hyphens. -/
def normalizeComparableText (s : String) : String :=
  String.mk (normalizeComparableChars s.data)

/-- Decide whether `p` is a prefix of `l` (JavaScript `startsWith`). -/
def prefixB (p l : List Char) : Bool :=
  match p, l with
  | [], _ => true
  | _ :: _, [] => false
  | a :: p', b :: l' => a = b && prefixB p' l'

/-- Decide whether `sub` occurs as a contiguous substring of `l`
(JavaScript `includes`). -/
def inclB (sub : List Char) : List Char → Bool
  | [] => prefixB sub []
  | c :: t => prefixB sub (c :: t) || inclB sub t

/-- Splitting on newline characters, accumulator reversed per piece. -/
def splitNlAux (acc : List Char) : List Char → List (List Char)
  | [] => [acc.reverse]
  | c :: rest =>
    if c = '\n' then acc.reverse :: splitNlAux [] rest
    else splitNlAux (c :: acc) rest

/-- Remove one trailing carriage return (the `\r?` of the separator). -/
def dropTrailingCr (l : List Char) : List Char :=
  match l.reverse with
  | '\r' :: rest => rest.reverse
  | _ => l

/-- Apply `f` to every element except the last one. -/
def mapExceptLast (f : List Char → List Char) : List (List Char) → List (List Char)
  | [] => []
  | [a] => [a]
  | a :: b :: rest => f a :: mapExceptLast f (b :: rest)

/-- JavaScript `description.split(/\r?\n/)`: split on `\n`, stripping one
`\r` from the end of every piece that was followed by a `\n`. -/
def splitLines (l : List Char) : List (List Char) :=
  mapExceptLast dropTrailingCr (splitNlAux [] l)

/-- `lines.join('\n')` on character lists. -/
def joinLines : List (List Char) → List Char
  | [] => []
  | [a] => a
  | a :: b :: rest => a ++ '\n' :: joinLines (b :: rest)

/-- A line for which `line.trim() === ''`. -/
def isBlankLine (l : List Char) : Bool := (trimChars l).isEmpty

/-! ### LabelExclusivityEnforcer (src/server/src/linear.ts:70-103) -/

/-- A team label as in `TeamMetadata['labels']`. -/
structure Label where
  id : String
  name : String
  color : Option String := none
  parentId : Option String := none
  parentName : Option String := none
  isGroup : Option Bool := none
deriving DecidableEq, Repr

/-- Lookup in the `byId` map `new Map(labels.map(l => [l.id, l]))`; a JS
`Map` constructor keeps the last binding for a duplicated key, hence the
`reverse`. -/
def lookupLabel (labels : List Label) (id : String) : Option Label :=
  labels.reverse.find? (fun l => l.id = id)

/-- The effective parent used by the enforcement loop: `meta?.parentId`
followed by the truthiness test `if (parentId)` (an empty string is
falsy). -/
def effParent (labels : List Label) (id : String) : Option String :=
  match (lookupLabel labels id).bind Label.parentId with
  | some p => if p = "" then none else some p
  | none => none

/-- The body of the `for (const id of labelIds)` loop of
`enforceExclusiveChildLabelIds`, emitting the `keep` and `dropped` arrays
in push order.  `seenIds` and `usedParentIds` are the two mutable sets. -/
def enforceScan (labels : List Label) (seenIds usedParentIds : List String) :
    List String → List String × List String
  | [] => ([], [])
  | id :: rest =>
    if seenIds.contains id then enforceScan labels seenIds usedParentIds rest
    else
      match effParent labels id with
      | some pid =>
        if usedParentIds.contains pid then
          let r := enforceScan labels (id :: seenIds) usedParentIds rest
          (r.1, id :: r.2)
        else
          let r := enforceScan labels (id :: seenIds) (pid :: usedParentIds) rest
          (id :: r.1, r.2)
      | none =>
        let r := enforceScan labels (id :: seenIds) usedParentIds rest
        (id :: r.1, r.2)

/-- `enforceExclusiveChildLabelIds(labelIds, labels)`
(src/server/src/linear.ts:70-103).  The first component is the kept ids,
the second the dropped ids.  The `labelIds`/`labels` `undefined` cases of
the guard are absorbed into the empty list. -/
def enforceExclusiveChildLabelIds (labelIds : List String) (labels : List Label) :
    List String × List String :=
  if labelIds.length < 2 || labels.isEmpty then (labelIds, [])
  else enforceScan labels [] [] labelIds

/-- Order-preserving deduplication keeping first occurrences (the effect
of the `seenIds` set in the loop), with an accumulator of already seen
ids. -/
def firstDedupAux (seen : List String) : List String → List String
  | [] => []
  | x :: rest =>
    if seen.contains x then firstDedupAux seen rest
    else x :: firstDedupAux (x :: seen) rest

/-- Order-preserving deduplication keeping first occurrences. -/
def firstDedup (l : List String) : List String := firstDedupAux [] l

/-- Spec-side enforcement, written after the specification's words: walk
the already deduplicated id list; an id without a parent is always kept;
an id with a parent is dropped exactly when that parent was already
claimed by a previously kept id, and otherwise claims the parent and is
kept.  `used` is the set of claimed parents. -/
def specEnforce (parentOf : String → Option String) (used : List String) :
    List String → List String × List String
  | [] => ([], [])
  | id :: rest =>
    match parentOf id with
    | some pid =>
      if used.contains pid then
        let r := specEnforce parentOf used rest
        (r.1, id :: r.2)
      else
        let r := specEnforce parentOf (pid :: used) rest
        (id :: r.1, r.2)
    | none =>
      let r := specEnforce parentOf used rest
      (id :: r.1, r.2)

/-! ### Step equations for the enforcement recursions -/

theorem firstDedupAux_cons_seen {seen : List String} {x : String} (l : List String)
    (h : x ∈ seen) : firstDedupAux seen (x :: l) = firstDedupAux seen l := by
  simp [firstDedupAux, h]

theorem firstDedupAux_cons_new {seen : List String} {x : String} (l : List String)
    (h : x ∉ seen) :
    firstDedupAux seen (x :: l) = x :: firstDedupAux (x :: seen) l := by
  simp [firstDedupAux, h]

theorem specEnforce_nil (f : String → Option String) (used : List String) :
    specEnforce f used [] = ([], []) := rfl

theorem specEnforce_cons_none {f : String → Option String} {used : List String}
    {a : String} (l : List String) (h : f a = none) :
    specEnforce f used (a :: l) =
      (a :: (specEnforce f used l).1, (specEnforce f used l).2) := by
  simp [specEnforce, h]

theorem specEnforce_cons_used {f : String → Option String} {used : List String}
    {a q : String} (l : List String) (h : f a = some q) (hq : q ∈ used) :
    specEnforce f used (a :: l) =
      ((specEnforce f used l).1, a :: (specEnforce f used l).2) := by
  simp [specEnforce, h, hq]

theorem specEnforce_cons_claim {f : String → Option String} {used : List String}
    {a q : String} (l : List String) (h : f a = some q) (hq : q ∉ used) :
    specEnforce f used (a :: l) =
      (a :: (specEnforce f (q :: used) l).1, (specEnforce f (q :: used) l).2) := by
  simp [specEnforce, h, hq]

theorem mem_firstDedupAux {x : String} :
    ∀ {l seen : List String}, x ∈ firstDedupAux seen l → x ∉ seen := by
  intro l
  induction l with
  | nil => intro seen h; simp [firstDedupAux] at h
  | cons a rest ih =>
    intro seen h
    by_cases ha : a ∈ seen
    · rw [firstDedupAux_cons_seen rest ha] at h
      exact ih h
    · rw [firstDedupAux_cons_new rest ha] at h
      rcases List.mem_cons.mp h with h | h
      · subst h; exact ha
      · have := ih h
        simp only [List.mem_cons, not_or] at this
        exact this.2

theorem nodup_firstDedupAux : ∀ (l seen : List String), (firstDedupAux seen l).Nodup := by
  intro l
  induction l with
  | nil => intro seen; simp [firstDedupAux]
  | cons a rest ih =>
    intro seen
    by_cases ha : a ∈ seen
    · rw [firstDedupAux_cons_seen rest ha]; exact ih seen
    · rw [firstDedupAux_cons_new rest ha]
      refine List.nodup_cons.mpr ⟨fun hmem => ?_, ih (a :: seen)⟩
      have := mem_firstDedupAux hmem
      simp at this

theorem nodup_firstDedup (l : List String) : (firstDedup l).Nodup :=
  nodup_firstDedupAux l []

/-- Decomposition: the source loop (which interleaves the `seenIds`
deduplication with parent claiming) equals deduplication followed by the
spec-side claiming pass. -/
theorem enforceScan_eq_specEnforce (labels : List Label) :
    ∀ (l seen used : List String),
      enforceScan labels seen used l =
        specEnforce (effParent labels) used (firstDedupAux seen l) := by
  intro l
  induction l with
  | nil => intro seen used; simp [enforceScan, firstDedupAux, specEnforce]
  | cons id rest ih =>
    intro seen used
    by_cases hseen : id ∈ seen
    · rw [firstDedupAux_cons_seen rest hseen, enforceScan,
        if_pos (by simpa using hseen)]
      exact ih seen used
    · rw [firstDedupAux_cons_new rest hseen, enforceScan,
        if_neg (by simpa using hseen)]
      cases hp : effParent labels id with
      | none => rw [specEnforce_cons_none _ hp]; simp only [ih]
      | some pid =>
        by_cases hu : pid ∈ used
        · rw [specEnforce_cons_used _ hp hu]
          simp only [hp, if_pos (by simpa using hu : used.contains pid = true), ih]
        · rw [specEnforce_cons_claim _ hp hu]
          simp only [hp, if_neg (by simpa using hu : ¬used.contains pid = true), ih]

theorem specEnforce_fst_sublist (f : String → Option String) :
    ∀ (ds used : List String), List.Sublist (specEnforce f used ds).1 ds := by
  intro ds
  induction ds with
  | nil => intro used; simp [specEnforce]
  | cons a rest ih =>
    intro used
    cases hfa : f a with
    | none => rw [specEnforce_cons_none _ hfa]; exact (ih used).cons₂ a
    | some q =>
      by_cases hq : q ∈ used
      · rw [specEnforce_cons_used _ hfa hq]; exact (ih used).cons a
      · rw [specEnforce_cons_claim _ hfa hq]; exact (ih (q :: used)).cons₂ a

theorem specEnforce_keeps_parentless (f : String → Option String) :
    ∀ (ds used : List String) (id : String), id ∈ ds → f id = none →
      id ∈ (specEnforce f used ds).1 := by
  intro ds
  induction ds with
  | nil => intro used id h; simp at h
  | cons a rest ih =>
    intro used id hmem hfid
    rcases List.mem_cons.mp hmem with h | h
    · subst h
      rw [specEnforce_cons_none _ hfid]
      exact List.mem_cons_self _ _
    · cases hfa : f a with
      | none =>
        rw [specEnforce_cons_none _ hfa]
        exact List.mem_cons_of_mem a (ih used id h hfid)
      | some q =>
        by_cases hq : q ∈ used
        · rw [specEnforce_cons_used _ hfa hq]
          exact ih used id h hfid
        · rw [specEnforce_cons_claim _ hfa hq]
          exact List.mem_cons_of_mem a (ih (q :: used) id h hfid)

theorem specEnforce_kept_iff_first (f : String → Option String) :
    ∀ (ds used : List String), ds.Nodup →
      ∀ (id : String) (p : String), id ∈ ds → f id = some p →
        (id ∈ (specEnforce f used ds).1 ↔
          (p ∉ used ∧ ds.find? (fun x => f x == some p) = some id)) := by
  intro ds
  induction ds with
  | nil => intro used _ id p h; simp at h
  | cons a rest ih =>
    intro used hnd id p hmem hfid
    have hnr : rest.Nodup := (List.nodup_cons.mp hnd).2
    have hanr : a ∉ rest := (List.nodup_cons.mp hnd).1
    cases hfa : f a with
    | none =>
      rcases List.mem_cons.mp hmem with h | h
      · subst h; rw [hfa] at hfid; exact absurd hfid (by simp)
      · have hne : id ≠ a := fun hh => hanr (hh ▸ h)
        rw [specEnforce_cons_none _ hfa,
          List.find?_cons_of_neg _ (by simp [hfa]), List.mem_cons]
        rw [ih used hnr id p h hfid]
        simp [hne]
    | some q =>
      by_cases hq : q ∈ used
      · rw [specEnforce_cons_used _ hfa hq]
        rcases List.mem_cons.mp hmem with h | h
        · subst h
          rw [hfa] at hfid
          have hpq : p = q := by injection hfid.symm
          subst hpq
          constructor
          · intro hk
            exact absurd ((specEnforce_fst_sublist f rest used).subset hk) hanr
          · intro hr
            exact absurd hq hr.1
        · have hne : id ≠ a := fun hh => hanr (hh ▸ h)
          by_cases hpq : p = q
          · subst hpq
            rw [List.find?_cons_of_pos _ (by simp [hfa])]
            rw [ih used hnr id p h hfid]
            constructor
            · intro hr; exact absurd hq hr.1
            · intro hr; exact absurd (Option.some.inj hr.2) (fun hh => hne hh.symm)
          · rw [List.find?_cons_of_neg _ (by simp [hfa]; exact fun hh => hpq hh.symm)]
            exact ih used hnr id p h hfid
      · rw [specEnforce_cons_claim _ hfa hq]
        rcases List.mem_cons.mp hmem with h | h
        · subst h
          rw [hfa] at hfid
          have hpq : p = q := by injection hfid.symm
          subst hpq
          rw [List.find?_cons_of_pos _ (by simp [hfa])]
          simp [hq]
        · have hne : id ≠ a := fun hh => hanr (hh ▸ h)
          have hmk := ih (q :: used) hnr id p h hfid
          by_cases hpq : p = q
          · subst hpq
            rw [List.find?_cons_of_pos _ (by simp [hfa]), List.mem_cons]
            rw [hmk]
            constructor
            · rintro (h' | h')
              · exact absurd h' hne
              · exact absurd (List.mem_cons_self _ _) h'.1
            · intro hr
              exact absurd (Option.some.inj hr.2) (fun hh => hne hh.symm)
          · rw [List.find?_cons_of_neg _ (by simp [hfa]; exact fun hh => hpq hh.symm),
              List.mem_cons]
            rw [hmk]
            constructor
            · rintro (h' | h')
              · exact absurd h' hne
              · refine ⟨fun hp' => h'.1 (List.mem_cons_of_mem q hp'), h'.2⟩
            · intro hr
              refine Or.inr ⟨?_, hr.2⟩
              simp only [List.mem_cons, not_or]
              exact ⟨hpq, hr.1⟩

theorem specEnforce_dropped_iff (f : String → Option String) :
    ∀ (ds used : List String), ds.Nodup →
      ∀ (id : String),
        id ∈ (specEnforce f used ds).2 ↔
          (id ∈ ds ∧ id ∉ (specEnforce f used ds).1) := by
  intro ds
  induction ds with
  | nil => intro used _ id; simp [specEnforce]
  | cons a rest ih =>
    intro used hnd id
    have hnr : rest.Nodup := (List.nodup_cons.mp hnd).2
    have hanr : a ∉ rest := (List.nodup_cons.mp hnd).1
    cases hfa : f a with
    | none =>
      rw [specEnforce_cons_none _ hfa]
      by_cases hid : id = a
      · subst hid
        have h1 : id ∉ (specEnforce f used rest).2 := fun hmem =>
          hanr (((ih used hnr id).mp hmem).1)
        simp [h1]
      · rw [ih used hnr id]
        simp [hid]
    | some q =>
      by_cases hq : q ∈ used
      · rw [specEnforce_cons_used _ hfa hq]
        by_cases hid : id = a
        · subst hid
          have h1 : id ∉ (specEnforce f used rest).1 := fun hmem =>
            hanr ((specEnforce_fst_sublist f rest used).subset hmem)
          simp [h1]
        · rw [List.mem_cons]
          simp only [hid, false_or]
          rw [ih used hnr id]
          simp [hid]
      · rw [specEnforce_cons_claim _ hfa hq]
        by_cases hid : id = a
        · subst hid
          have h1 : id ∉ (specEnforce f (q :: used) rest).2 := fun hmem =>
            hanr (((ih (q :: used) hnr id).mp hmem).1)
          simp [h1]
        · rw [ih (q :: used) hnr id]
          simp [hid]

/-- Labels used to instantiate the exclusivity theorems: labels
`a` and `b` share the `parentId` group `g1`; label `c` has no parent. -/
def demoLabels : List Label :=
  [{ id := "a", name := "Backend", parentId := some "g1" },
   { id := "b", name := "Frontend", parentId := some "g1" },
   { id := "c", name := "Bug" }]

/-- C1 (amended).  Provided the id list has at least two entries and the
label metadata list is non-empty, `enforceExclusiveChildLabelIds`
deduplicates preserving order and then keeps or drops each id by the
parent-claiming rule: parentless ids are always kept, and an id with a
parent is kept exactly when it is the first id of the deduplicated list
with that parent; dropped ids are exactly the deduplicated ids that were
not kept.  When the guard fails (fewer than two ids, or no label
metadata) the input ids are returned unchanged and nothing is dropped. -/
theorem enforceExclusiveChildLabelIds_spec :
    (∀ (ids : List String) (labels : List Label),
      2 ≤ ids.length → labels ≠ [] →
        enforceExclusiveChildLabelIds ids labels =
            specEnforce (effParent labels) [] (firstDedup ids)
          ∧ List.Sublist (enforceExclusiveChildLabelIds ids labels).1 (firstDedup ids)
          ∧ (∀ id ∈ firstDedup ids, effParent labels id = none →
              id ∈ (enforceExclusiveChildLabelIds ids labels).1)
          ∧ (∀ id p, id ∈ firstDedup ids → effParent labels id = some p →
              (id ∈ (enforceExclusiveChildLabelIds ids labels).1 ↔
                (firstDedup ids).find?
                  (fun x => effParent labels x == some p) = some id))
          ∧ (∀ id, id ∈ (enforceExclusiveChildLabelIds ids labels).2 ↔
              (id ∈ firstDedup ids ∧
                id ∉ (enforceExclusiveChildLabelIds ids labels).1)))
    ∧ (∀ (ids : List String) (labels : List Label),
        ids.length < 2 ∨ labels = [] →
          enforceExclusiveChildLabelIds ids labels = (ids, [])) := by
  constructor
  · intro ids labels h2 hl
    have hguard : ¬(ids.length < 2 || labels.isEmpty) = true := by
      simp [Nat.not_lt.mpr h2, List.isEmpty_iff, hl]
    have heq : enforceExclusiveChildLabelIds ids labels =
        specEnforce (effParent labels) [] (firstDedup ids) := by
      rw [enforceExclusiveChildLabelIds, if_neg hguard]
      exact enforceScan_eq_specEnforce labels ids [] []
    refine ⟨heq, ?_, ?_, ?_, ?_⟩
    · rw [heq]; exact specEnforce_fst_sublist _ _ _
    · intro id hmem hp
      rw [heq]
      exact specEnforce_keeps_parentless _ _ _ _ hmem hp
    · intro id p hmem hp
      rw [heq]
      have := specEnforce_kept_iff_first (effParent labels) (firstDedup ids) []
        (nodup_firstDedup ids) id p hmem hp
      simpa using this
    · intro id
      rw [heq]
      exact specEnforce_dropped_iff _ _ _ (nodup_firstDedup ids) id
  · intro ids labels h
    rcases h with h | h
    · rw [enforceExclusiveChildLabelIds, if_pos (by simp [h])]
    · rw [enforceExclusiveChildLabelIds, if_pos (by simp [h])]

/-- Witness for C1: on ids `[a, b, c]` with `a` and `b` sharing parent
`g1`, the first child is kept, the second dropped, and the parentless
label kept. -/
theorem enforceExclusiveChildLabelIds_spec_witness :
    enforceExclusiveChildLabelIds ["a", "b", "c"] demoLabels =
        specEnforce (effParent demoLabels) [] (firstDedup ["a", "b", "c"])
      ∧ enforceExclusiveChildLabelIds ["a", "b", "c"] demoLabels =
        (["a", "c"], ["b"]) :=
  ⟨(enforceExclusiveChildLabelIds_spec.1 ["a", "b", "c"] demoLabels
      (by decide) (by decide)).1,
   by decide⟩

/-- Counterexample to C1 as stated: with an empty label metadata list the
guard returns the id list unchanged, so a duplicated id is not
deduplicated. -/
theorem enforceExclusiveChildLabelIds_dedup_counterexample :
    (enforceExclusiveChildLabelIds ["a", "a"] []).1 = ["a", "a"]
      ∧ ¬ (enforceExclusiveChildLabelIds ["a", "a"] []).1.Nodup := by
  constructor
  · decide
  · decide

/-! ### TextNormalizer (src/server/src/linear.ts:116-162) -/

/-- The regex `/^#{1,6}\s+(.+)$/` applied to an already trimmed first
line: on a match, the trimmed capture is everything after the heading
marker; otherwise the line itself is used. -/
def stripHeaderMarker (line : List Char) : List Char :=
  let hashes := line.takeWhile (fun c => c = '#')
  let rest := line.dropWhile (fun c => c = '#')
  let headWs : Bool := match rest with
    | c :: _ => isJsWs c
    | [] => false
  if 1 ≤ hashes.length ∧ hashes.length ≤ 6 ∧ headWs = true then trimChars rest
  else line

/-- `stripTitleFromDescription` on plain strings, after the
`!title || !description` falsiness guard: examine the first non-blank
line; if it (with an optional markdown heading marker removed) matches
the title under `normalizeComparableText`, remove it together with the
immediately following blank lines, rejoin and `trimStart`. -/
def stripTitleCore (t d : String) : String :=
  let lines := splitLines d.data
  let pre := lines.takeWhile isBlankLine
  let post := lines.dropWhile isBlankLine
  match post with
  | [] => d
  | firstLine :: tail =>
    if normalizeComparableChars (stripHeaderMarker (trimChars firstLine)) =
        normalizeComparableChars t.data then
      String.mk (trimStartChars (joinLines (pre ++ tail.dropWhile isBlankLine)))
    else d

/-- `stripTitleFromDescription(title, description)`
(src/server/src/linear.ts:116-136); an absent or empty title or
description is returned unchanged (JavaScript falsiness). -/
def stripTitleFromDescription (title description : Option String) : Option String :=
  match title, description with
  | some t, some d => if t = "" ∨ d = "" then description else some (stripTitleCore t d)
  | _, _ => description

/-- Whether the first non-blank line of `d` matches title `t`, i.e. the
condition under which `stripTitleCore` modifies its input. -/
def hasTitleHead (t d : String) : Bool :=
  match (splitLines d.data).dropWhile isBlankLine with
  | [] => false
  | firstLine :: _ =>
    normalizeComparableChars (stripHeaderMarker (trimChars firstLine)) ==
      normalizeComparableChars t.data

/-- The phase-line regex
`/^\s*(?:\*\*phase:\*\*|phase:)\s*(.+?)\s*$/i` on a single line: returns
the trimmed captured value on a match. -/
def parsePhaseLine (line : List Char) : Option (List Char) :=
  let l1 := trimStartChars line
  if prefixB "**phase:**".data (lowerChars l1) then
    let rest := l1.drop 10
    if rest.isEmpty then none else some (trimChars rest)
  else if prefixB "phase:".data (lowerChars l1) then
    let rest := l1.drop 6
    if rest.isEmpty then none else some (trimChars rest)
  else none

/-- The `for` loop of `extractPhaseAndStripFromDescription`: find the
first line matching the phase pattern, remove it and the blank lines
that immediately follow, and return the extracted value with the
remaining lines. -/
def extractPhaseLines : List (List Char) → Option (List Char × List (List Char))
  | [] => none
  | line :: rest =>
    match parsePhaseLine line with
    | some ph => some (ph, rest.dropWhile isBlankLine)
    | none =>
      match extractPhaseLines rest with
      | some r => some (r.1, line :: r.2)
      | none => none

/-- `extractPhaseAndStripFromDescription` on a plain string, after the
`!description` guard.  Returns `(phase, description)`. -/
def extractPhaseCore (d : String) : Option String × String :=
  match extractPhaseLines (splitLines d.data) with
  | some r => (some (String.mk r.1), String.mk (trimStartChars (joinLines r.2)))
  | none => (none, d)

/-- `extractPhaseAndStripFromDescription(description)`
(src/server/src/linear.ts:142-162). -/
def extractPhaseAndStripFromDescription (description : Option String) :
    Option String × Option String :=
  match description with
  | some d =>
    if d = "" then (none, some d)
    else ((extractPhaseCore d).1, some (extractPhaseCore d).2)
  | none => (none, none)

/-- Whether `d` contains a line matching the phase pattern, i.e. the
condition under which `extractPhaseCore` modifies its input. -/
def hasPhaseLine (d : String) : Bool :=
  (extractPhaseLines (splitLines d.data)).isSome

theorem stripTitleCore_of_not_match {t d : String} (h : hasTitleHead t d = false) :
    stripTitleCore t d = d := by
  unfold stripTitleCore
  unfold hasTitleHead at h
  cases hpost : (splitLines d.data).dropWhile isBlankLine with
  | nil => simp [hpost]
  | cons firstLine tail =>
    rw [hpost] at h
    simp only [beq_eq_false_iff_ne, ne_eq] at h
    simp [hpost, h]

theorem extractPhaseCore_of_no_phase {d : String} (h : hasPhaseLine d = false) :
    extractPhaseCore d = (none, d) := by
  unfold extractPhaseCore
  unfold hasPhaseLine at h
  cases hext : extractPhaseLines (splitLines d.data) with
  | none => simp
  | some r => rw [hext] at h; simp at h

/-- C3 (amended).  Each application of `stripTitleFromDescription`
removes at most the first matching title line, and each application of
`extractPhaseAndStripFromDescription` consumes at most the first phase
line; therefore a second application changes nothing provided the result
of the first application no longer starts with a line matching the title
(respectively no longer contains a phase line).  Unconditional
idempotence fails (see the counterexample). -/
theorem stripTitle_extract_conditionally_idempotent :
    (∀ (t d d' : String),
        stripTitleFromDescription (some t) (some d) = some d' →
        hasTitleHead t d' = false →
        stripTitleFromDescription (some t) (some d') = some d')
    ∧ (∀ (d : String) (ph : Option String) (d' : String),
        extractPhaseAndStripFromDescription (some d) = (ph, some d') →
        hasPhaseLine d' = false →
        extractPhaseAndStripFromDescription (some d') = (none, some d')) := by
  constructor
  · intro t d d' h1 h2
    by_cases ht : t = ""
    · simp [stripTitleFromDescription, ht]
    · by_cases hd' : d' = ""
      · simp [stripTitleFromDescription, ht, hd']
      · rw [stripTitleFromDescription, if_neg (by simp [ht, hd'])]
        rw [stripTitleCore_of_not_match h2]
  · intro d ph d' h1 h2
    by_cases hd' : d' = ""
    · simp [extractPhaseAndStripFromDescription, hd']
    · rw [extractPhaseAndStripFromDescription, if_neg hd',
        extractPhaseCore_of_no_phase h2]

/-- Witness for C3 (amended): once the title header and the phase line
have been consumed, a second pass is the identity. -/
theorem stripTitle_extract_conditionally_idempotent_witness :
    stripTitleFromDescription (some "Fix login") (some "Steps...") = some "Steps..."
      ∧ extractPhaseAndStripFromDescription (some "Steps...") =
        (none, some "Steps...") :=
  ⟨stripTitle_extract_conditionally_idempotent.1 "Fix login"
      "# Fix login\n\nSteps..." "Steps..." (by decide) (by decide),
   stripTitle_extract_conditionally_idempotent.2 "**Phase:** P1: Beta\nSteps..."
      (some "P1: Beta") "Steps..." (by decide) (by decide)⟩

/-- Counterexample to C3 as stated: with a duplicated title line
(respectively two phase lines) the second application strips again, so
neither function is unconditionally idempotent. -/
theorem stripTitle_extract_idempotence_counterexample :
    stripTitleFromDescription (some "T")
          (stripTitleFromDescription (some "T") (some "T\nT"))
        ≠ stripTitleFromDescription (some "T") (some "T\nT")
      ∧ (extractPhaseAndStripFromDescription
            (extractPhaseAndStripFromDescription (some "Phase: A\nPhase: B")).2).2
        ≠ (extractPhaseAndStripFromDescription (some "Phase: A\nPhase: B")).2 := by
  constructor
  · decide
  · decide

/-! ### PriorityNormalizer (src/server/src/linear.ts:164-239) -/

/-- A regex word character `\w` (`[A-Za-z0-9_]`). -/
def isWordChar (c : Char) : Bool := c.isAlpha || c.isDigit || c = '_'

/-- A digit in the `[0-4]` class. -/
def isDigit04 (c : Char) : Bool := '0' ≤ c && c ≤ '4'

/-- Numeric value of a decimal digit character. -/
def digitVal (c : Char) : Nat := c.toNat - '0'.toNat

/-- Word boundary `\b` before a word character: holds at the start of the
string or after a non-word character. -/
def boundaryBefore : Option Char → Bool
  | none => true
  | some c => !isWordChar c

/-- Word boundary `\b` after a word character: holds at the end of the
string or before a non-word character. -/
def boundaryAfter : List Char → Bool
  | [] => true
  | c :: _ => !isWordChar c

/-- Scanner for the first match of `/\b(p[0-4])\b/i`; `prev` is the
character before the current position. -/
def findPCodeAux (prev : Option Char) : List Char → Option Nat
  | [] => none
  | c :: rest =>
    match rest with
    | d :: rest2 =>
      if (c = 'p' || c = 'P') && boundaryBefore prev && isDigit04 d &&
          boundaryAfter rest2 then
        some (digitVal d)
      else findPCodeAux (some c) rest
    | [] => none

/-- First match of `/\b(p[0-4])\b/i`, returning the digit. -/
def findPCode (l : List Char) : Option Nat := findPCodeAux none l

/-- Map a phase level `P0..P4` to Linear priority `1..4` (Urgent..Low):
`level <= 0 -> 1`, `1 -> 2`, `2 -> 3`, otherwise `4`. -/
def phaseLevelToPriority (level : Nat) : Int :=
  if level ≤ 0 then 1 else if level = 1 then 2 else if level = 2 then 3 else 4

/-- Attempt of `/\*\*phase:\*\*\s*(p[0-4])\b/i` anchored at the current
position. -/
def tryStarsAt (l : List Char) : Option Nat :=
  if prefixB "**phase:**".data (lowerChars l) then
    match (l.drop 10).dropWhile isJsWs with
    | p :: d :: rest2 =>
      if (p = 'p' || p = 'P') && isDigit04 d && boundaryAfter rest2 then
        some (digitVal d)
      else none
    | _ => none
  else none

/-- First match of `/\*\*phase:\*\*\s*(p[0-4])\b/i` over the string. -/
def scanStars : List Char → Option Nat
  | [] => none
  | c :: rest =>
    match tryStarsAt (c :: rest) with
    | some v => some v
    | none => scanStars rest

/-- Attempt of `/^\s*phase:\s*(p[0-4])\b/im` anchored at the current
(line-start) position; `\s` may cross line breaks. -/
def tryPlainAt (l : List Char) : Option Nat :=
  let r := l.dropWhile isJsWs
  if prefixB "phase:".data (lowerChars r) then
    match (r.drop 6).dropWhile isJsWs with
    | p :: d :: rest2 =>
      if (p = 'p' || p = 'P') && isDigit04 d && boundaryAfter rest2 then
        some (digitVal d)
      else none
    | _ => none
  else none

/-- A position at which the multiline anchor `^` matches: the string
start or just after a line terminator. -/
def atLineStart : Option Char → Bool
  | none => true
  | some c => c = '\n' || c = '\r'

/-- First match of `/^\s*phase:\s*(p[0-4])\b/im` over the string. -/
def scanPlainAux (prev : Option Char) : List Char → Option Nat
  | [] => none
  | c :: rest =>
    if atLineStart prev then
      match tryPlainAt (c :: rest) with
      | some v => some v
      | none => scanPlainAux (some c) rest
    else scanPlainAux (some c) rest

/-- The description-only part of `inferPriorityFromText`
(src/server/src/linear.ts:178-192): the starred pattern is tried first,
then the line-anchored one. -/
def inferFromDescriptionOnly (description : Option String) : Option Int :=
  match description with
  | none => none
  | some d =>
    if d = "" then none
    else
      match scanStars d.data with
      | some level => some (phaseLevelToPriority level)
      | none =>
        match scanPlainAux none d.data with
        | some level => some (phaseLevelToPriority level)
        | none => none

/-- `inferPriorityFromText(description, phase)`
(src/server/src/linear.ts:164-193): a non-blank `phase` string is
scanned for a `P0`-`P4` code and the description is then never
consulted; otherwise the description is scanned. -/
def inferPriorityFromText (description phase : Option String) : Option Int :=
  match phase with
  | some p =>
    if (trimChars p.data).isEmpty then inferFromDescriptionOnly description
    else
      match findPCode p.data with
      | some level => some (phaseLevelToPriority level)
      | none => none
  | none => inferFromDescriptionOnly description

/-- The `unknown` priority input of `normalizeIssuePriority`.
JavaScript numbers reaching the in-range checks are modelled as
integers, making `Math.trunc` the identity. -/
inductive PValue where
  | undef
  | jsNull
  | num (n : Int)
  | str (s : String)
deriving DecidableEq, Repr

/-- `String(value).trim().toLowerCase().replace(/\s+/g, '')`. -/
def rawNormalize (s : String) : String :=
  String.mk (((trimChars s.data).map Char.toLower).filter (fun c => !isJsWs c))

/-- The fixed token table of `normalizeIssuePriority`
(src/server/src/linear.ts:214-228). -/
def priorityTable (r : String) : Option Int :=
  if r = "urgent" then some 1
  else if r = "p0" then some 1
  else if r = "high" then some 2
  else if r = "p1" then some 2
  else if r = "normal" then some 3
  else if r = "medium" then some 3
  else if r = "p2" then some 3
  else if r = "low" then some 4
  else if r = "p3" then some 4
  else if r = "p4" then some 4
  else if r = "none" then some 0
  else if r = "nopriority" then some 0
  else if r = "no-priority" then some 0
  else none

/-- Decimal value of a digit run. -/
def digitsToNat (ds : List Char) : Nat := ds.foldl (fun a c => a * 10 + digitVal c) 0

/-- `Number.parseInt(s, 10)`: optional sign then a maximal leading digit
run; `none` models `NaN`. -/
def parseIntJS (s : String) : Option Int :=
  let l := s.data.dropWhile isJsWs
  match l with
  | '-' :: rest =>
    let ds := rest.takeWhile Char.isDigit
    if ds.isEmpty then none else some (-(digitsToNat ds : Int))
  | '+' :: rest =>
    let ds := rest.takeWhile Char.isDigit
    if ds.isEmpty then none else some ((digitsToNat ds : Int))
  | _ =>
    let ds := l.takeWhile Char.isDigit
    if ds.isEmpty then none else some ((digitsToNat ds : Int))

/-- `normalizeIssuePriority(value, description, phase)`
(src/server/src/linear.ts:199-239). -/
def normalizeIssuePriority (value : PValue) (description phase : Option String) :
    Option Int :=
  let inferred := inferPriorityFromText description phase
  match value with
  | .undef => inferred
  | .jsNull => inferred
  | .num n =>
    if n = 0 ∧ inferred ≠ none then inferred
    else if 0 ≤ n ∧ n ≤ 4 then some n
    else inferred
  | .str s =>
    if s = "" then inferred
    else
      match priorityTable (rawNormalize s) with
      | some k => some k
      | none =>
        match parseIntJS (rawNormalize s) with
        | some p =>
          if p = 0 ∧ inferred ≠ none then inferred
          else if 0 ≤ p ∧ p ≤ 4 then some p
          else inferred
        | none => inferred

/-- C2.  `normalizeIssuePriority` follows the documented decision
procedure: any case/whitespace variant of a table token maps to its
documented integer; an in-range integer value is returned as is unless
it is an explicit `0` with a defined phase-inferred priority, which
defers to the inferred value; out-of-range and unrecognized values
return the inferred priority; and an absent value returns the inferred
priority (hence `undefined` when no signal exists at all). -/
theorem normalizeIssuePriority_spec :
    (∀ (s : String) (d ph : Option String) (k : Int),
        priorityTable (rawNormalize s) = some k →
        normalizeIssuePriority (.str s) d ph = some k)
    ∧ (normalizeIssuePriority (.num 0) (some "**Phase:** P2\nSteps") none = some 3
        ∧ normalizeIssuePriority (.num 2) (some "**Phase:** P2\nSteps") none = some 2)
    ∧ (∀ (n : Int) (d ph : Option String), 0 ≤ n → n ≤ 4 →
        ¬(n = 0 ∧ inferPriorityFromText d ph ≠ none) →
        normalizeIssuePriority (.num n) d ph = some n)
    ∧ (∀ (d ph : Option String), inferPriorityFromText d ph ≠ none →
        normalizeIssuePriority (.num 0) d ph = inferPriorityFromText d ph)
    ∧ (∀ (n : Int) (d ph : Option String), n < 0 ∨ 4 < n →
        normalizeIssuePriority (.num n) d ph = inferPriorityFromText d ph)
    ∧ (∀ (s : String) (d ph : Option String),
        priorityTable (rawNormalize s) = none →
        parseIntJS (rawNormalize s) = none →
        normalizeIssuePriority (.str s) d ph = inferPriorityFromText d ph)
    ∧ (∀ (d ph : Option String),
        normalizeIssuePriority .undef d ph = inferPriorityFromText d ph) := by
  refine ⟨?_, ⟨by decide, by decide⟩, ?_, ?_, ?_, ?_, ?_⟩
  · intro s d ph k htab
    by_cases hs : s = ""
    · subst hs
      have hnone : priorityTable (rawNormalize "") = none := by decide
      rw [hnone] at htab
      exact absurd htab (by simp)
    · simp [normalizeIssuePriority, hs, htab]
  · intro n d ph h0 h4 hnot
    simp only [normalizeIssuePriority]
    rw [if_neg hnot, if_pos ⟨h0, h4⟩]
  · intro d ph h
    simp [normalizeIssuePriority, h]
  · intro n d ph h
    have h1 : ¬(n = 0 ∧ inferPriorityFromText d ph ≠ none) := by
      rintro ⟨he, -⟩; omega
    have h2 : ¬((0 : Int) ≤ n ∧ n ≤ 4) := by omega
    simp only [normalizeIssuePriority]
    rw [if_neg h1, if_neg h2]
  · intro s d ph htab hparse
    by_cases hs : s = ""
    · simp [normalizeIssuePriority, hs]
    · simp [normalizeIssuePriority, hs, htab, hparse]
  · intro d ph
    rfl

/-- Witness for C2: concrete table tokens in case/whitespace variants,
the explicit in-range value 2 (which wins over the P2 phase), and the
no-signal case. -/
theorem normalizeIssuePriority_spec_witness :
    normalizeIssuePriority (.str "  URGENT ") none none = some 1
      ∧ normalizeIssuePriority (.str "No Priority") none none = some 0
      ∧ normalizeIssuePriority (.num 2) (some "**Phase:** P2\nSteps") none = some 2
      ∧ normalizeIssuePriority .undef none none = none :=
  ⟨normalizeIssuePriority_spec.1 "  URGENT " none none 1 (by decide),
   normalizeIssuePriority_spec.1 "No Priority" none none 0 (by decide),
   normalizeIssuePriority_spec.2.2.1 2 (some "**Phase:** P2\nSteps") none
     (by decide) (by decide) (by decide),
   (normalizeIssuePriority_spec.2.2.2.2.2.2 none none).trans (by decide)⟩

/-- C10.  A non-blank `phase` hint containing no standalone `P0`-`P4`
code makes the inferred priority `undefined` without the description
ever being scanned: with an absent value the result is `undefined`, and
an explicit numeric `0` is kept, even when the description carries a
`**Phase:** P2` line. -/
theorem inferPriority_phaseHint_exclusive :
    ∀ (ph : String), (trimChars ph.data).isEmpty = false →
      findPCode ph.data = none →
      ∀ (d : Option String),
        inferPriorityFromText d (some ph) = none
        ∧ normalizeIssuePriority .undef d (some ph) = none
        ∧ normalizeIssuePriority (.num 0) d (some ph) = some 0 := by
  intro ph h1 h2 d
  have hinf : inferPriorityFromText d (some ph) = none := by
    simp only [inferPriorityFromText]
    rw [if_neg (by simp [h1]), h2]
  refine ⟨hinf, ?_, ?_⟩
  · simpa only [normalizeIssuePriority] using hinf
  · simp only [normalizeIssuePriority]
    rw [if_neg (fun h => h.2 hinf), if_pos (by omega)]

/-- Witness for C10: phase hint `Alpha` has no P-code, so no priority is
inferred even though the description names phase `P2`. -/
theorem inferPriority_phaseHint_exclusive_witness :
    inferPriorityFromText (some "**Phase:** P2") (some "Alpha") = none
      ∧ normalizeIssuePriority .undef (some "**Phase:** P2") (some "Alpha") = none
      ∧ normalizeIssuePriority (.num 0) (some "**Phase:** P2") (some "Alpha") =
        some 0 :=
  inferPriority_phaseHint_exclusive "Alpha" (by decide) (by decide)
    (some "**Phase:** P2")

/-! ### Milestone fuzzy matcher (src/server/src/linear.ts:241-307) -/

/-- A project milestone `{id, name}`. -/
structure Milestone where
  id : String
  name : String
deriving DecidableEq, Repr

/-- The `push` helper of `buildMilestoneMatchCandidates`: trim, skip
empty, skip duplicates, append. -/
def pushCand (out : List String) (s : String) : List String :=
  let v := jsTrim s
  if v = "" then out
  else if out.contains v then out
  else out ++ [v]

/-- `raw.indexOf(':')`. -/
def idxOfColon : List Char → Option Nat
  | [] => none
  | c :: rest => if c = ':' then some 0 else (idxOfColon rest).map (· + 1)

/-- A dash-family separator character (hyphen, en dash, em dash). -/
def isDashSep (c : Char) : Bool := c = '-' || c = '–' || c = '—'

/-- Whether a list starts with a whitespace character. -/
def headIsWs : List Char → Bool
  | t :: _ => isJsWs t
  | [] => false

theorem length_dropWhile_le' (p : Char → Bool) (l : List Char) :
    (l.dropWhile p).length ≤ l.length := by
  induction l with
  | nil => simp [List.dropWhile]
  | cons a t ih =>
    rw [List.dropWhile]
    by_cases h : p a
    · simp only [h, if_true]; exact Nat.le_succ_of_le ih
    · simp [h]

/-- `raw.split(/\s+[–—-]\s+/)`: at a whitespace character, if the maximal
whitespace run is followed by a dash and further whitespace, the whole
`ws+ dash ws+` block separates two pieces.  Every step consumes at least
one character, so structural recursion on a fuel bounded by the input
length replaces the well-founded recursion on the list; the fuel-zero
case can only be reached with an empty remainder. -/
def dashSplitFuel : Nat → List Char → List Char → List (List Char)
  | 0, acc, l => [acc.reverse ++ l]
  | _ + 1, acc, [] => [acc.reverse]
  | fuel + 1, acc, c :: rest =>
    if isJsWs c then
      match (c :: rest).dropWhile isJsWs with
      | d :: tail =>
        if isDashSep d && headIsWs tail then
          acc.reverse :: dashSplitFuel fuel [] (tail.dropWhile isJsWs)
        else dashSplitFuel fuel (c :: acc) rest
      | [] => dashSplitFuel fuel (c :: acc) rest
    else dashSplitFuel fuel (c :: acc) rest

/-- `raw.split(/\s+[–—-]\s+/)`. -/
def dashSplit (l : List Char) : List (List Char) := dashSplitFuel l.length [] l

/-- `buildMilestoneMatchCandidates(input)`
(src/server/src/linear.ts:241-271): the raw trimmed hint, the two sides
of the first colon, the dash-separated parts (when more than one), and
any `P0`-`P4` code. -/
def buildMilestoneMatchCandidates (input : String) : List String :=
  let raw := jsTrim input
  let out0 := pushCand [] raw
  let out1 :=
    match idxOfColon raw.data with
    | some i =>
      pushCand (pushCand out0 (String.mk (raw.data.take i)))
        (String.mk (raw.data.drop (i + 1)))
    | none => out0
  let parts := dashSplit raw.data
  let out2 :=
    if parts.length > 1 then
      parts.foldl (fun o p => pushCand o (String.mk p)) out1
    else out1
  match findPCode raw.data with
  | some dgt => pushCand out2 (String.mk ['P', Char.ofNat (48 + dgt)])
  | none => out2

/-- A scored (milestone, candidate) pair; `len` is the length of the
normalized candidate. -/
structure ScoredM where
  score : Nat
  len : Nat
  milestone : Milestone
deriving DecidableEq, Repr

/-- Score one (milestone, candidate) pair: 3 for an exact normalized
match, 2 for a one-sided prefix match, 1 for substring containment in
either direction; empty candidates are skipped. -/
def scoreCandidate (nn : String) (m : Milestone) (c : String) : Option ScoredM :=
  if c = "" then none
  else if nn = c then some ⟨3, c.length, m⟩
  else if prefixB c.data nn.data || prefixB nn.data c.data then some ⟨2, c.length, m⟩
  else if inclB c.data nn.data || inclB nn.data c.data then some ⟨1, c.length, m⟩
  else none

/-- The nested `for` loops building the `scored` array, in encounter
order (milestones outer, candidates inner). -/
def scorePairs (milestones : List Milestone) (cands : List String) : List ScoredM :=
  milestones.flatMap (fun m =>
    cands.filterMap (fun c => scoreCandidate (normalizeComparableText m.name) m c))

/-- `b` strictly beats `a` under the comparator
`(x, y) => y.score - x.score || y.length - x.length`. -/
def betterScore (a b : ScoredM) : Bool :=
  b.score > a.score || (b.score == a.score && b.len > a.len)

/-- Running maximum keeping the earlier element on ties. -/
def selectTopFrom (best : ScoredM) : List ScoredM → ScoredM
  | [] => best
  | e :: rest =>
    if betterScore best e then selectTopFrom e rest else selectTopFrom best rest

/-- `scored.sort((a, b) => b.score - a.score || b.length - a.length)[0]`:
the sort is stable and descending, so its head is the first-encountered
element with the lexicographically largest `(score, length)` key. -/
def selectTop : List ScoredM → Option ScoredM
  | [] => none
  | a :: rest => some (selectTopFrom a rest)

/-- The normalized candidate list used by the matcher. -/
def buildNormalizedCandidates (hint : String) : List String :=
  (buildMilestoneMatchCandidates hint).map normalizeComparableText

/-- `findProjectMilestoneMatch(milestones, hint)`
(src/server/src/linear.ts:276-307). -/
def findProjectMilestoneMatch (milestones : List Milestone) (hint : String) :
    Option Milestone :=
  if hint = "" ∨ milestones = [] then none
  else
    (selectTop (scorePairs milestones (buildNormalizedCandidates hint))).map
      ScoredM.milestone

theorem betterScore_trans {a b c : ScoredM} (h1 : betterScore a b = true)
    (h2 : betterScore b c = true) : betterScore a c = true := by
  simp only [betterScore, Bool.or_eq_true, Bool.and_eq_true, beq_iff_eq,
    decide_eq_true_eq] at *
  omega

theorem betterScore_shift {a b c : ScoredM} (h1 : betterScore a b = false)
    (h2 : betterScore a c = true) : betterScore b c = true := by
  have h1n : ¬ betterScore a b = true := by simp [h1]
  simp only [betterScore, Bool.or_eq_true, Bool.and_eq_true, beq_iff_eq,
    decide_eq_true_eq, not_or, not_and, not_lt] at h1n h2 ⊢
  obtain ⟨hn1, hn2⟩ := h1n
  rcases h2 with h2 | ⟨h2a, h2b⟩
  · left; omega
  · by_cases hsc : b.score = a.score
    · have := hn2 hsc
      right; exact ⟨by omega, by omega⟩
    · left; omega

/-- The running maximum is the first-encountered maximal element: the
scanned list splits around it, everything before is strictly beaten by
it, and nothing after strictly beats it. -/
theorem selectTopFrom_spec (l : List ScoredM) :
    ∀ (best : ScoredM),
      ∃ pre post, best :: l = pre ++ selectTopFrom best l :: post
        ∧ (∀ e ∈ pre, betterScore e (selectTopFrom best l) = true)
        ∧ (∀ e ∈ post, betterScore (selectTopFrom best l) e = false) := by
  induction l with
  | nil => intro best; exact ⟨[], [], rfl, by simp, by simp⟩
  | cons e rest ih =>
    intro best
    by_cases hbe : betterScore best e = true
    · have hsel : selectTopFrom best (e :: rest) = selectTopFrom e rest := by
        simp [selectTopFrom, hbe]
      obtain ⟨pre', post', hsplit, hpre, hpost⟩ := ih e
      rw [hsel]
      refine ⟨best :: pre', post', ?_, ?_, hpost⟩
      · rw [List.cons_append, ← hsplit]
      · intro x hx
        rcases List.mem_cons.mp hx with hx | hx
        · subst hx
          cases pre' with
          | nil =>
            have : e = selectTopFrom e rest := by
              have := hsplit
              simp only [List.nil_append] at this
              exact (List.cons.injEq _ _ _ _).mp this |>.1
            rw [← this]
            exact hbe
          | cons hd tl =>
            have hhd : hd = e := by
              have := hsplit
              simp only [List.cons_append] at this
              exact ((List.cons.injEq _ _ _ _).mp this).1.symm
            have he' : e ∈ hd :: tl := by rw [hhd]; exact List.mem_cons_self _ _
            exact betterScore_trans hbe (hpre e he')
        · exact hpre x hx
    · have hbe' : betterScore best e = false := Bool.eq_false_iff.mpr hbe
      have hsel : selectTopFrom best (e :: rest) = selectTopFrom best rest := by
        simp [selectTopFrom, hbe]
      obtain ⟨pre', post', hsplit, hpre, hpost⟩ := ih best
      rw [hsel]
      cases pre' with
      | nil =>
        simp only [List.nil_append] at hsplit
        have h1 : best = selectTopFrom best rest :=
          ((List.cons.injEq _ _ _ _).mp hsplit).1
        have h2 : rest = post' := ((List.cons.injEq _ _ _ _).mp hsplit).2
        refine ⟨[], e :: post', ?_, by simp, ?_⟩
        · simp only [List.nil_append]
          rw [← h1, ← h2]
        · intro x hx
          rcases List.mem_cons.mp hx with hx | hx
          · subst hx; rw [← h1]; exact hbe'
          · exact hpost x hx
      | cons hd tl =>
        simp only [List.cons_append] at hsplit
        have h1 : best = hd := ((List.cons.injEq _ _ _ _).mp hsplit).1
        have h2 : rest = tl ++ selectTopFrom best rest :: post' :=
          ((List.cons.injEq _ _ _ _).mp hsplit).2
        have hbestpre : betterScore best (selectTopFrom best rest) = true := by
          refine hpre best ?_
          rw [← h1]; exact List.mem_cons_self _ _
        refine ⟨best :: e :: tl, post', ?_, ?_, hpost⟩
        · simp only [List.cons_append]
          rw [← h2]
        · intro x hx
          rcases List.mem_cons.mp hx with hx | hx
          · subst hx; exact hbestpre
          · rcases List.mem_cons.mp hx with hx | hx
            · subst hx; exact betterScore_shift hbe' hbestpre
            · exact hpre x (List.mem_cons_of_mem hd hx)

theorem selectTop_eq_none_iff (l : List ScoredM) : selectTop l = none ↔ l = [] := by
  cases l <;> simp [selectTop]

theorem selectTop_spec {l : List ScoredM} {e : ScoredM} (h : selectTop l = some e) :
    ∃ pre post, l = pre ++ e :: post
      ∧ (∀ x ∈ pre, betterScore x e = true)
      ∧ (∀ x ∈ post, betterScore e x = false) := by
  cases l with
  | nil => simp [selectTop] at h
  | cons a rest =>
    have he : selectTopFrom a rest = e := by simpa [selectTop] using h
    obtain ⟨pre, post, hsplit, hpre, hpost⟩ := selectTopFrom_spec rest a
    rw [he] at hsplit hpre hpost
    exact ⟨pre, post, hsplit, hpre, hpost⟩

/-- C4.  For a non-empty hint, `findProjectMilestoneMatch` scores every
(milestone, candidate) pair built from the hint's candidates, returns
`undefined` exactly when no pair scores, and otherwise returns the
milestone of the first-encountered pair with the lexicographically
highest `(score, candidate length)`; in particular, for milestones
`P0: Alpha` / `P1: Beta` and hint `P0` it returns `m1`. -/
theorem findProjectMilestoneMatch_spec :
    (∀ (ms : List Milestone) (hint : String), hint ≠ "" →
      (findProjectMilestoneMatch ms hint = none ↔
        scorePairs ms (buildNormalizedCandidates hint) = []))
    ∧ (∀ (ms : List Milestone) (hint : String) (m : Milestone),
        findProjectMilestoneMatch ms hint = some m →
        ∃ pre e post,
          scorePairs ms (buildNormalizedCandidates hint) = pre ++ e :: post
          ∧ e.milestone = m
          ∧ (∀ x ∈ pre, betterScore x e = true)
          ∧ (∀ x ∈ post, betterScore e x = false))
    ∧ findProjectMilestoneMatch
        [⟨"m1", "P0: Alpha"⟩, ⟨"m2", "P1: Beta"⟩] "P0" =
        some ⟨"m1", "P0: Alpha"⟩ := by
  refine ⟨?_, ?_, by decide⟩
  · intro ms hint hh
    by_cases hms : ms = []
    · subst hms
      simp [findProjectMilestoneMatch, scorePairs]
    · rw [findProjectMilestoneMatch, if_neg (by simp [hh, hms])]
      rw [Option.map_eq_none']
      exact selectTop_eq_none_iff _
  · intro ms hint m h
    by_cases hg : hint = "" ∨ ms = []
    · rw [findProjectMilestoneMatch, if_pos hg] at h
      exact absurd h (by simp)
    · rw [findProjectMilestoneMatch, if_neg hg] at h
      obtain ⟨e, hsel, hm⟩ := Option.map_eq_some'.mp h
      obtain ⟨pre, post, hsplit, hpre, hpost⟩ := selectTop_spec hsel
      exact ⟨pre, e, post, hsplit, hm, hpre, hpost⟩

/-- Witness for C4: a hint that scores no pair yields `undefined`. -/
theorem findProjectMilestoneMatch_spec_witness :
    findProjectMilestoneMatch [⟨"m1", "P0: Alpha"⟩, ⟨"m2", "P1: Beta"⟩] "zzz" =
      none :=
  (findProjectMilestoneMatch_spec.1 [⟨"m1", "P0: Alpha"⟩, ⟨"m2", "P1: Beta"⟩]
    "zzz" (by decide)).mpr (by decide)

/-! ### MetadataCache and mock fallback (src/server/src/linear.ts:36-52, 310-442) -/

structure TeamInfo where
  id : String
  name : String
deriving DecidableEq, Repr

structure ProjectInfo where
  id : String
  name : String
  state : Option String := none
deriving DecidableEq, Repr

/-- A cycle; the ISO timestamp strings are modelled as epoch
milliseconds. -/
structure CycleInfo where
  id : String
  name : String
  number : Option Nat := none
  startsAt : Option Nat := none
  endsAt : Option Nat := none
deriving DecidableEq, Repr

structure StateInfo where
  id : String
  name : String
  type : Option String := none
  position : Option Nat := none
deriving DecidableEq, Repr

/-- `TeamMetadata` (src/server/src/types.ts). -/
structure TeamMetadata where
  team : TeamInfo
  projects : List ProjectInfo
  cycles : List CycleInfo
  labels : List Label
  states : List StateInfo
deriving DecidableEq, Repr

/-- JavaScript `a || b` on optional strings: an empty string is falsy. -/
def jsOrStr : Option String → Option String → Option String
  | some s, b => if s = "" then b else some s
  | none, b => b

/-- `shouldMock(apiKey)` (src/server/src/linear.ts:37-41) with the
environment key threaded explicitly:
`!key || !key.startsWith('lin_api_') || key === 'mock-key'`. -/
def shouldMock (apiKey envKey : Option String) : Bool :=
  match jsOrStr apiKey envKey with
  | none => true
  | some k => k = "" || !(prefixB "lin_api_".data k.data) || k = "mock-key"

deriving instance DecidableEq for Except

/-- A thrown upstream error with optional HTTP status and message. -/
structure UpstreamError where
  status : Option Nat := none
  message : Option String := none
deriving DecidableEq, Repr

/-- `err.status === 401 || err.message?.includes('authenticated')`. -/
def isAuthFailure (e : UpstreamError) : Bool :=
  e.status == some 401 ||
    (match e.message with
     | some m => inclB "authenticated".data m.data
     | none => false)

/-- `safeExecute(operation, mockData, apiKey)`
(src/server/src/linear.ts:310-325): mock mode short-circuits, an
authentication failure of the operation falls back to the mock value,
any other error is rethrown.  The operation's outcome is a parameter of
the embedding. -/
def safeExecute {α : Type} (op : Except UpstreamError α) (mockData : α)
    (apiKey envKey : Option String) : Except UpstreamError α :=
  if shouldMock apiKey envKey then .ok mockData
  else
    match op with
    | .ok v => .ok v
    | .error e => if isAuthFailure e then .ok mockData else .error e

/-- The `mockMetadata` value of `getTeamMetadata`
(src/server/src/linear.ts:342-356); `endsAt` is `Date.now() + 86400000`. -/
def mockMetadata (teamId : String) (now : Nat) : TeamMetadata where
  team := ⟨teamId, "Mock Team"⟩
  projects := [{ id := "mock-proj-1", name := "Mock Project", state := some "planned" }]
  cycles := [{ id := "mock-cycle-1", name := "Cycle 1", number := some 1,
               endsAt := some (now + 86400000) }]
  labels := [{ id := "mock-label-bug", name := "Bug", color := some "#ff0000",
               isGroup := some false },
             { id := "mock-label-feat", name := "Feature", color := some "#00ff00",
               isGroup := some false }]
  states := [{ id := "mock-state-backlog", name := "Backlog", type := some "backlog",
               position := some 1 },
             { id := "mock-state-todo", name := "Todo", type := some "unstarted",
               position := some 2 },
             { id := "mock-state-in-progress", name := "In Progress",
               type := some "started", position := some 3 },
             { id := "mock-state-done", name := "Done", type := some "completed",
               position := some 4 }]

/-- The `mockMilestones` value of `getProjectMilestones`
(src/server/src/linear.ts:423-426). -/
def mockMilestones : List Milestone :=
  [⟨"mock-ms-1", "Alpha Release"⟩, ⟨"mock-ms-2", "Beta Release"⟩]

/-- `CACHE_TTL = 5 * 60 * 1000` (five minutes in milliseconds). -/
def CACHE_TTL : Nat := 5 * 60 * 1000

/-- `Map.get`. -/
def cacheLookup {β : Type} (cache : List (String × β)) (k : String) : Option β :=
  (cache.find? (fun e => e.1 = k)).map Prod.snd

/-- `Map.set`: replace the binding in place or append a new one. -/
def cacheSet {β : Type} : List (String × β) → String → β → List (String × β)
  | [], k, v => [(k, v)]
  | e :: t, k, v => if e.1 = k then (k, v) :: t else e :: cacheSet t k v

/-- `getTeamMetadata(teamId, opts)` (src/server/src/linear.ts:329-413)
as a pure transition on the cache.  `now` is `Date.now()`, `fetch` the
outcome the upstream would produce if consulted.  Returns the result,
the new cache, and whether an upstream fetch was performed.  All fetch
errors are rethrown (the function does not route through
`safeExecute`). -/
def getTeamMetadata (cache : List (String × (TeamMetadata × Nat))) (now : Nat)
    (teamId : String) (force : Bool) (apiKey envKey : Option String)
    (fetch : Except UpstreamError TeamMetadata) :
    Except UpstreamError TeamMetadata × List (String × (TeamMetadata × Nat)) × Bool :=
  let hit : Option TeamMetadata :=
    if force then none
    else
      match cacheLookup cache teamId with
      | some entry => if now < entry.2 then some entry.1 else none
      | none => none
  match hit with
  | some d => (.ok d, cache, false)
  | none =>
    if shouldMock apiKey envKey then (.ok (mockMetadata teamId now), cache, false)
    else
      match fetch with
      | .ok d => (.ok d, cacheSet cache teamId (d, now + CACHE_TTL), true)
      | .error e => (.error e, cache, true)

/-- `getProjectMilestones(projectId, opts)`
(src/server/src/linear.ts:415-442) as a pure transition on the milestone
cache.  A fetch error is caught and yields the empty list, without
caching. -/
def getProjectMilestones (cache : List (String × (List Milestone × Nat))) (now : Nat)
    (projectId : String) (force : Bool) (apiKey envKey : Option String)
    (fetch : Except UpstreamError (List Milestone)) :
    Except UpstreamError (List Milestone) × List (String × (List Milestone × Nat)) × Bool :=
  let hit : Option (List Milestone) :=
    if force then none
    else
      match cacheLookup cache projectId with
      | some entry => if now < entry.2 then some entry.1 else none
      | none => none
  match hit with
  | some d => (.ok d, cache, false)
  | none =>
    if shouldMock apiKey envKey then (.ok mockMilestones, cache, false)
    else
      match fetch with
      | .ok ms => (.ok ms, cacheSet cache projectId (ms, now + CACHE_TTL), true)
      | .error _ => (.ok [], cache, true)

theorem cacheLookup_cacheSet {β : Type} (cache : List (String × β)) (k : String)
    (v : β) : cacheLookup (cacheSet cache k v) k = some v := by
  induction cache with
  | nil => simp [cacheSet, cacheLookup, List.find?]
  | cons e t ih =>
    by_cases he : e.1 = k
    · simp [cacheSet, he, cacheLookup, List.find?]
    · have hd : decide (e.1 = k) = false := by simp [he]
      simp only [cacheSet, if_neg he, cacheLookup, List.find?, hd]
      exact ih

theorem getTeamMetadata_hit {cache : List (String × (TeamMetadata × Nat))}
    {now : Nat} {teamId : String} {d : TeamMetadata} {expires : Nat}
    (apiKey envKey : Option String) (fetch : Except UpstreamError TeamMetadata)
    (hlk : cacheLookup cache teamId = some (d, expires)) (hlt : now < expires) :
    getTeamMetadata cache now teamId false apiKey envKey fetch =
      (.ok d, cache, false) := by
  simp [getTeamMetadata, hlk, hlt]

theorem getTeamMetadata_force {apiKey envKey : Option String}
    (cache : List (String × (TeamMetadata × Nat))) (now : Nat) (teamId : String)
    (d : TeamMetadata) (hmock : shouldMock apiKey envKey = false) :
    getTeamMetadata cache now teamId true apiKey envKey (.ok d) =
      (.ok d, cacheSet cache teamId (d, now + CACHE_TTL), true) := by
  simp [getTeamMetadata, hmock]

/-- C9.  A cache hit within the TTL returns the identical cached object
with no upstream fetch, whatever the upstream would have produced; with
`force = true` (or after expiry) a fresh fetch occurs and its result
replaces the cache entry wholesale; in particular a second call within
5 minutes of a successful forced fetch is answered from the cache. -/
theorem getTeamMetadata_ttl_spec :
    (∀ (cache : List (String × (TeamMetadata × Nat))) (now : Nat) (teamId : String)
        (apiKey envKey : Option String) (d : TeamMetadata) (expires : Nat)
        (fetch : Except UpstreamError TeamMetadata),
      cacheLookup cache teamId = some (d, expires) → now < expires →
      getTeamMetadata cache now teamId false apiKey envKey fetch =
        (.ok d, cache, false))
    ∧ (∀ cache now teamId (apiKey envKey : Option String) d,
        shouldMock apiKey envKey = false →
        getTeamMetadata cache now teamId true apiKey envKey (.ok d) =
          (.ok d, cacheSet cache teamId (d, now + CACHE_TTL), true))
    ∧ (∀ cache now teamId (apiKey envKey : Option String) d now' fetch2,
        shouldMock apiKey envKey = false → now' < now + CACHE_TTL →
        getTeamMetadata
            ((getTeamMetadata cache now teamId true apiKey envKey (.ok d)).2.1)
            now' teamId false apiKey envKey fetch2 =
          (.ok d,
            (getTeamMetadata cache now teamId true apiKey envKey (.ok d)).2.1,
            false))
    ∧ (∀ cache now teamId (apiKey envKey : Option String) d expires d',
        shouldMock apiKey envKey = false →
        cacheLookup cache teamId = some (d, expires) → expires ≤ now →
        getTeamMetadata cache now teamId false apiKey envKey (.ok d') =
          (.ok d', cacheSet cache teamId (d', now + CACHE_TTL), true)) := by
  refine ⟨?_, ?_, ?_, ?_⟩
  · intro cache now teamId apiKey envKey d expires fetch hlk hlt
    exact getTeamMetadata_hit apiKey envKey fetch hlk hlt
  · intro cache now teamId apiKey envKey d hmock
    exact getTeamMetadata_force cache now teamId d hmock
  · intro cache now teamId apiKey envKey d now' fetch2 hmock hlt
    rw [getTeamMetadata_force cache now teamId d hmock]
    exact getTeamMetadata_hit apiKey envKey fetch2
      (cacheLookup_cacheSet cache teamId (d, now + CACHE_TTL)) hlt
  · intro cache now teamId apiKey envKey d expires d' hmock hlk hexp
    simp [getTeamMetadata, hmock, hlk, Nat.not_lt.mpr hexp]

/-- Witness for C9: starting from the empty cache, a forced live fetch
stores the value and a call 1 ms later is served from the cache without
fetching, even though the upstream would now fail. -/
theorem getTeamMetadata_ttl_spec_witness :
    getTeamMetadata
        ((getTeamMetadata [] 0 "t1" true (some "lin_api_k") none
            (.ok (mockMetadata "t1" 7))).2.1)
        1 "t1" false (some "lin_api_k") none (.error ⟨some 500, none⟩) =
      (.ok (mockMetadata "t1" 7),
        (getTeamMetadata [] 0 "t1" true (some "lin_api_k") none
            (.ok (mockMetadata "t1" 7))).2.1,
        false) :=
  getTeamMetadata_ttl_spec.2.2.1 [] 0 "t1" (some "lin_api_k") none
    (mockMetadata "t1" 7) 1 (.error ⟨some 500, none⟩) (by decide) (by decide)

/-- C6 (amended).  A missing, invalid-format or placeholder credential
(`shouldMock`) makes `getTeamMetadata` return the documented mock value
without attempting any upstream fetch, and `safeExecute`-wrapped reads
additionally map an upstream authentication failure (401 or an
`authenticated` message) to their mock value; but `getTeamMetadata`
itself propagates every error of an actually performed fetch, including
authentication failures (its `catch` rethrows). -/
theorem mockFallback_spec :
    (∀ cache now teamId (apiKey envKey : Option String) fetch,
        shouldMock apiKey envKey = true →
        getTeamMetadata cache now teamId true apiKey envKey fetch =
            (.ok (mockMetadata teamId now), cache, false)
          ∧ (cacheLookup cache teamId = none →
              getTeamMetadata cache now teamId false apiKey envKey fetch =
                (.ok (mockMetadata teamId now), cache, false)))
    ∧ (∀ (α : Type) (mockData : α) (apiKey envKey : Option String)
          (e : UpstreamError),
        isAuthFailure e = true →
        safeExecute (.error e) mockData apiKey envKey = .ok mockData)
    ∧ (∀ cache now teamId (apiKey envKey : Option String) e,
        shouldMock apiKey envKey = false →
        getTeamMetadata cache now teamId true apiKey envKey (.error e) =
          (.error e, cache, true)) := by
  refine ⟨?_, ?_, ?_⟩
  · intro cache now teamId apiKey envKey fetch hmock
    constructor
    · simp [getTeamMetadata, hmock]
    · intro hmiss
      simp [getTeamMetadata, hmock, hmiss]
  · intro α mockData apiKey envKey e hauth
    unfold safeExecute
    by_cases hm : shouldMock apiKey envKey = true
    · rw [if_pos hm]
    · rw [if_neg hm]
      simp [hauth]
  · intro cache now teamId apiKey envKey e hmock
    simp [getTeamMetadata, hmock]

/-- Witness for C6 (amended): an absent credential yields the mock
descriptor even when the upstream would fail, and `safeExecute` maps a
401 to the mock value. -/
theorem mockFallback_spec_witness :
    getTeamMetadata [] 0 "team-1" true none none (.error ⟨some 500, none⟩) =
        (.ok (mockMetadata "team-1" 0), [], false)
      ∧ safeExecute (.error ⟨some 401, none⟩) "mock" (some "lin_api_k") none =
        .ok "mock" :=
  ⟨(mockFallback_spec.1 [] 0 "team-1" none none (.error ⟨some 500, none⟩)
      (by decide)).1,
   mockFallback_spec.2.1 String "mock" (some "lin_api_k") none ⟨some 401, none⟩
      (by decide)⟩

/-- Counterexample to C6 as stated: with a well-formed but rejected
credential the upstream fetch does happen, its 401 authentication
failure is rethrown by `getTeamMetadata`, and no mock fallback occurs. -/
theorem getTeamMetadata_authError_counterexample :
    (getTeamMetadata [] 0 "team-1" false (some "lin_api_bad") none
        (.error ⟨some 401, some "not authenticated"⟩)).1 =
      .error ⟨some 401, some "not authenticated"⟩
    ∧ (getTeamMetadata [] 0 "team-1" false (some "lin_api_bad") none
        (.error ⟨some 401, some "not authenticated"⟩)).1 ≠
      .ok (mockMetadata "team-1" 0) := by
  constructor
  · decide
  · decide

/-- C7 (amended).  On a live credential and a cache miss,
`getTeamMetadata` propagates every upstream fetch error to the caller;
`getProjectMilestones`, however, catches the error and returns the
empty list (without caching anything). -/
theorem upstreamError_propagation_spec :
    (∀ cache now teamId (apiKey envKey : Option String) e,
        shouldMock apiKey envKey = false → cacheLookup cache teamId = none →
        getTeamMetadata cache now teamId false apiKey envKey (.error e) =
          (.error e, cache, true))
    ∧ (∀ cache now projectId (apiKey envKey : Option String) e,
        shouldMock apiKey envKey = false → cacheLookup cache projectId = none →
        getProjectMilestones cache now projectId false apiKey envKey (.error e) =
          (.ok [], cache, true)) := by
  constructor
  · intro cache now teamId apiKey envKey e hmock hmiss
    simp [getTeamMetadata, hmock, hmiss]
  · intro cache now projectId apiKey envKey e hmock hmiss
    simp [getProjectMilestones, hmock, hmiss]

/-- Witness for C7 (amended): a 500 error is raised by
`getTeamMetadata` but swallowed into `[]` by `getProjectMilestones`. -/
theorem upstreamError_propagation_spec_witness :
    getTeamMetadata [] 0 "t1" false (some "lin_api_k") none
        (.error ⟨some 500, some "boom"⟩) =
      (.error ⟨some 500, some "boom"⟩, [], true)
    ∧ getProjectMilestones [] 0 "p1" false (some "lin_api_k") none
        (.error ⟨some 500, some "boom"⟩) =
      (.ok [], [], true) :=
  ⟨upstreamError_propagation_spec.1 [] 0 "t1" (some "lin_api_k") none
      ⟨some 500, some "boom"⟩ (by decide) (by decide),
   upstreamError_propagation_spec.2 [] 0 "p1" (some "lin_api_k") none
      ⟨some 500, some "boom"⟩ (by decide) (by decide)⟩

/-- Counterexample to C7 as stated: `getProjectMilestones` does not
raise a non-authentication upstream error; it returns the empty list. -/
theorem getProjectMilestones_swallow_counterexample :
    (getProjectMilestones [] 0 "p1" false (some "lin_api_k") none
        (.error ⟨some 500, some "boom"⟩)).1 = .ok []
    ∧ (getProjectMilestones [] 0 "p1" false (some "lin_api_k") none
        (.error ⟨some 500, some "boom"⟩)).1 ≠
      .error ⟨some 500, some "boom"⟩ := by
  constructor
  · decide
  · decide

/-! ### Batch execution (src/pages/api/execute.ts:92-130) -/

/-- A thrown execution error as inspected by `getClientErrorMessage`:
the messages of `e?.errors` and the top-level `e?.message`. -/
structure ExecError where
  errors : List (Option String) := []
  message : Option String := none
deriving DecidableEq, Repr

/-- `getClientErrorMessage(error)` (src/pages/api/execute.ts:105-112):
prefer a non-blank first Linear error message, then a non-blank
`message`, else `'Execution failed'`. -/
def getClientErrorMessage (e : ExecError) : String :=
  let fromMessage : String :=
    match e.message with
    | some m => if (trimChars m.data).isEmpty then "Execution failed" else m
    | none => "Execution failed"
  match e.errors.head? with
  | some (some m) => if (trimChars m.data).isEmpty then fromMessage else m
  | _ => fromMessage

/-- One entry of the `results` array of the batch loop:
`{...item, status, data?, error?}`. -/
structure BatchItemResult (ι α : Type) where
  item : ι
  status : String
  data : Option α := none
  error : Option String := none
deriving DecidableEq, Repr

/-- The batch loop of the execute handler
(src/pages/api/execute.ts:115-128): items are processed sequentially;
each `executeLinearAction` call is wrapped in its own `try`, a success
pushes `status: 'success'` with the result, a throw pushes
`status: 'failed'` with the captured error text.  The per-item call
outcome is the `exec` parameter. -/
def executeBatch {ι α : Type} (exec : ι → Except ExecError α) (batch : List ι) :
    List (BatchItemResult ι α) :=
  batch.map (fun item =>
    match exec item with
    | .ok r => { item := item, status := "success", data := some r }
    | .error e =>
      { item := item, status := "failed",
        error := some (getClientErrorMessage e) })

/-- C8.  Batch execution is sequential with per-item failure isolation:
the result list is index-aligned with the batch, an item whose mutation
call throws is marked `failed` with the captured error text, and every
other item's outcome is exactly what its own call produced, unaffected
by failures elsewhere. -/
theorem executeBatch_isolation :
    (∀ (ι α : Type) (exec : ι → Except ExecError α) (batch : List ι),
      (executeBatch exec batch).length = batch.length)
    ∧ (∀ (ι α : Type) (exec : ι → Except ExecError α) (batch : List ι)
          (i : Nat) (item : ι),
        batch[i]? = some item →
        ∀ r, exec item = .ok r →
        (executeBatch exec batch)[i]? =
          some { item := item, status := "success", data := some r })
    ∧ (∀ (ι α : Type) (exec : ι → Except ExecError α) (batch : List ι)
          (i : Nat) (item : ι),
        batch[i]? = some item →
        ∀ e, exec item = .error e →
        (executeBatch exec batch)[i]? =
          some { item := item, status := "failed",
                 error := some (getClientErrorMessage e) }) := by
  refine ⟨?_, ?_, ?_⟩
  · intro ι α exec batch
    simp [executeBatch]
  · intro ι α exec batch i item hitem r hr
    rw [executeBatch, List.getElem?_map, hitem]
    simp [hr]
  · intro ι α exec batch i item hitem e he
    rw [executeBatch, List.getElem?_map, hitem]
    simp [he]

/-- Per-item outcome used to instantiate the batch theorem: item 2's
mutation call throws, the others succeed. -/
def demoExec (n : Nat) : Except ExecError String :=
  if n = 2 then .error { errors := [], message := some "boom" } else .ok "done"

/-- Witness for C8: in the 3-item batch `[1, 2, 3]` under `demoExec`,
items 1 and 3 succeed and item 2 alone is failed with the captured
error text. -/
theorem executeBatch_isolation_witness :
    (executeBatch demoExec [1, 2, 3])[0]? =
        some { item := 1, status := "success", data := some "done" }
      ∧ (executeBatch demoExec [1, 2, 3])[1]? =
        some { item := 2, status := "failed", error := some "boom" }
      ∧ (executeBatch demoExec [1, 2, 3])[2]? =
        some { item := 3, status := "success", data := some "done" } :=
  ⟨executeBatch_isolation.2.1 Nat String demoExec [1, 2, 3] 0 1 (by decide)
      "done" (by decide),
   (executeBatch_isolation.2.2 Nat String demoExec [1, 2, 3] 1 2 (by decide)
      { errors := [], message := some "boom" } (by decide)).trans (by decide),
   executeBatch_isolation.2.1 Nat String demoExec [1, 2, 3] 2 3 (by decide)
      "done" (by decide)⟩

/-! ### Mutation payload construction (src/server/src/linear.ts:446-531,
558-717, 870-955) -/

/-- A JavaScript value as found in an action payload. -/
inductive JVal where
  | s (v : String)
  | n (v : Int)
  | arr (v : List String)
  | b (v : Bool)
deriving DecidableEq, Repr

/-- A JavaScript object as a key-ordered association list; a key mapped
to `none` models a key present with value `undefined`, an absent key is
also `undefined` on access. -/
abbrev JObj := List (String × Option JVal)

/-- Property access `o[k]`. -/
def jget : JObj → String → Option JVal
  | [], _ => none
  | e :: t, k => if e.1 = k then e.2 else jget t k

/-- Whether the object has the key at all (`k in o`). -/
def hasKey : JObj → String → Bool
  | [], _ => false
  | e :: t, k => e.1 == k || hasKey t k

/-- JavaScript truthiness of a possibly absent value. -/
def jsTruthy : Option JVal → Bool
  | some (.s v) => v != ""
  | some (.n v) => v != 0
  | some (.arr _) => true
  | some (.b v) => v
  | none => false

/-- Truthiness of an optional string. -/
def optTruthy : Option String → Bool
  | some s => s != ""
  | none => false

/-- `typeof x === 'string' ? x : undefined`. -/
def asStr : Option JVal → Option String
  | some (.s v) => some v
  | _ => none

/-- A string value when truthy (the `a || b` chains on the helper
fields, which are declared as strings). -/
def truthyStr : Option JVal → Option String
  | some (.s v) => if v = "" then none else some v
  | _ => none

/-- The `unknown` priority input as passed to `normalizeIssuePriority`;
the payload type declares `priority?: number`, other shapes are mapped
through their string coercion. -/
def toPValue : Option JVal → PValue
  | none => .undef
  | some (.n v) => .num v
  | some (.s v) => .str v
  | some (.b true) => .str "true"
  | some (.b false) => .str "false"
  | some (.arr _) => .str ""

/-- Conditional property assignment `if (b) o[k] = v`. -/
def setIf (b : Bool) (k : String) (v : Option JVal) (o : JObj) : JObj :=
  if b then cacheSet o k v else o

/-- Conditional property deletion `if (b) delete o[k]`. -/
def deleteIf (b : Bool) (k : String) (o : JObj) : JObj :=
  if b then o.filter (fun e => e.1 != k) else o

/-- `toLinearState(internalState)` (src/server/src/types.ts): map
`inProgress` to `started`, keep valid Linear states, default anything
else to `planned`; a falsy input stays `undefined`. -/
def toLinearState (internalState : Option String) : Option String :=
  match internalState with
  | none => none
  | some st =>
    if st = "" then none
    else if st = "inProgress" then some "started"
    else if st ∈ ["backlog", "planned", "started", "paused", "completed", "canceled"]
    then some st
    else some "planned"

/-- `milestoneHint = payload.projectMilestoneName || payload.milestoneName
|| payload.phase || undefined`. -/
def milestoneHintOf (p : JObj) : Option String :=
  match truthyStr (jget p "projectMilestoneName") with
  | some h => some h
  | none =>
    match truthyStr (jget p "milestoneName") with
    | some h => some h
    | none => truthyStr (jget p "phase")

/-- `typeof milestoneHint === 'string' && milestoneHint.trim().length > 0
? milestoneHint : phase`. -/
def milestoneHintResolvedOf (milestoneHint phase : Option String) : Option String :=
  match milestoneHint with
  | some h => if (trimChars h.data).isEmpty then phase else some h
  | none => phase

/-- Whether an optional string is present with non-blank trim. -/
def nonBlank : Option String → Bool
  | some h => !(trimChars h.data).isEmpty
  | none => false

/-- The payload handed to `client.createIssue` by `createIssue`
(src/server/src/linear.ts:446-531): destructure the canonical fields,
strip the duplicated title and the phase line, normalize the priority,
resolve the milestone from the hint (the outcome of
`getProjectMilestones` is the `milestones` parameter), assemble the
fixed-key object literal of lines 498-510, then re-run the label
exclusivity enforcement on `labelIds` (the outcome of `getTeamMetadata`
is the `metadata` parameter; lookup failures leave the payload as is). -/
def createIssueMutationPayload (p : JObj)
    (milestones : Except UpstreamError (List Milestone))
    (metadata : Except UpstreamError (List Label)) : JObj :=
  let title := jget p "title"
  let description := jget p "description"
  let projectId := jget p "projectId"
  let milestoneHint := milestoneHintOf p
  let titleStripped := stripTitleFromDescription (asStr title) (asStr description)
  let ext := extractPhaseAndStripFromDescription titleStripped
  let phase := ext.1
  let withoutPhase := ext.2
  let normalizedPriority :=
    normalizeIssuePriority (toPValue (jget p "priority")) withoutPhase
      (match milestoneHint with | some h => some h | none => phase)
  let resolved0 := asStr (jget p "projectMilestoneId")
  let resolved1 : Option String :=
    match resolved0 with
    | some m => if m != "" && !jsTruthy projectId then none else some m
    | none => none
  let milestoneHintResolved := milestoneHintResolvedOf milestoneHint phase
  let resolved2 : Option String :=
    if !optTruthy resolved1 && jsTruthy projectId && nonBlank milestoneHintResolved
    then
      match milestones with
      | .ok ms =>
        match findProjectMilestoneMatch ms (milestoneHintResolved.getD "") with
        | some m => some m.id
        | none => resolved1
      | .error _ => resolved1
    else resolved1
  let finalDescription : Option String :=
    if optTruthy resolved2 && withoutPhase.isSome then withoutPhase
    else titleStripped
  let basePayload : JObj :=
    [("teamId", jget p "teamId"),
     ("title", title),
     ("description", finalDescription.map JVal.s),
     ("priority", normalizedPriority.map JVal.n),
     ("projectId", projectId),
     ("projectMilestoneId", resolved2.map JVal.s),
     ("cycleId", jget p "cycleId"),
     ("labelIds", jget p "labelIds"),
     ("assigneeId", jget p "assigneeId"),
     ("stateId", jget p "stateId"),
     ("state", jget p "state")]
  let enforcedLabels : Option (List String) :=
    match jget p "labelIds" with
    | some (.arr ids) =>
      if ids.length > 1 then
        match metadata with
        | .ok labels => some (enforceExclusiveChildLabelIds ids labels).1
        | .error _ => none
      else none
    | _ => none
  setIf enforcedLabels.isSome "labelIds" (enforcedLabels.map JVal.arr) basePayload

/-- The payload handed to `client.createProject` by `createProject`
(src/server/src/linear.ts:870-891): the eight canonical fields; the
description is cleaned of a duplicated title taken from `name` (or the
helper `title`), the state is converted with `toLinearState`. -/
def createProjectMutationPayload (p : JObj) : JObj :=
  let name := jget p "name"
  let description := asStr (jget p "description")
  let projectTitle : Option String :=
    match asStr name with
    | some n => some n
    | none => asStr (jget p "title")
  let cleanedDescription : Option String :=
    match projectTitle, description with
    | some t, some d => some ((stripTitleFromDescription (some t) (some d)).getD d)
    | _, _ => description
  [("name", name),
   ("teamIds", jget p "teamIds"),
   ("description", cleanedDescription.map JVal.s),
   ("state", (toLinearState (asStr (jget p "state"))).map JVal.s),
   ("leadId", jget p "leadId"),
   ("color", jget p "color"),
   ("icon", jget p "icon"),
   ("priority", jget p "priority")]

/-- The payload handed to `client.updateProject` by `updateProject`
(src/server/src/linear.ts:912-955): as for project creation, and the
separately passed `id` is removed from the payload
(`const { id: _ignoredId, ...updatePayload }`). -/
def updateProjectMutationPayload (p : JObj) : JObj :=
  createProjectMutationPayload p

/-- Code-unit comparison used by the default-free `sort()` of
`sameStringArray`. -/
def charListLe : List Char → List Char → Bool
  | [], _ => true
  | _ :: _, [] => false
  | a :: as, b :: bs =>
    if a.toNat < b.toNat then true
    else if b.toNat < a.toNat then false
    else charListLe as bs

/-- Insertion into a sorted string list. -/
def insertSorted (x : String) : List String → List String
  | [] => [x]
  | y :: t => if charListLe x.data y.data then x :: y :: t else y :: insertSorted x t

/-- `slice().sort()` on strings. -/
def sortStrings : List String → List String
  | [] => []
  | x :: t => insertSorted x (sortStrings t)

/-- `sameStringArray(a, b)` (src/server/src/linear.ts:612-619): both
must be arrays, and their sorted string members must agree. -/
def sameStringArray (a : Option JVal) (b : Option (List String)) : Bool :=
  match a, b with
  | some (.arr aa), some bb => sortStrings aa == sortStrings bb
  | _, _ => false

/-- The issue fetched by `client.issue(input.id)` inside `updateIssue`,
with the fields the update logic reads. -/
structure IssueSnapshot where
  id : String
  title : String
  description : Option String := none
  priority : Option Int := none
  projectId : Option String := none
  projectMilestoneId : Option String := none
  cycleId : Option String := none
  labelIds : Option (List String) := none
  assigneeId : Option String := none
  stateId : Option String := none
  teamId : Option String := none
deriving DecidableEq, Repr

/-- Lines 639-665 of `updateIssue`: conditionally delete the milestone
id (no effective project), then set the milestone resolved from the
hint and, when the issue is in no project yet, the project id. -/
def updMilestonePhase (u : JObj) (dropMilestone : Bool) (matched : Option String)
    (effectiveProjectId issueProjectId : Option String) : JObj :=
  let u1 := deleteIf dropMilestone "projectMilestoneId" u
  let u2 := setIf matched.isSome "projectMilestoneId" (matched.map JVal.s) u1
  setIf (matched.isSome && !jsTruthy (jget u2 "projectId") &&
      !optTruthy issueProjectId)
    "projectId" (effectiveProjectId.map JVal.s) u2

/-- Lines 667-670 of `updateIssue`: remove the phase line from the
description only when a milestone is set or resolved. -/
def updDescriptionPhase (u : JObj) (wantsDescriptionUpdate : Bool)
    (withoutPhase : Option String) : JObj :=
  setIf (jsTruthy (jget u "projectMilestoneId") && wantsDescriptionUpdate &&
      withoutPhase.isSome)
    "description" (withoutPhase.map JVal.s) u

/-- Lines 672-694 of `updateIssue`: re-run the label exclusivity
enforcement on the outgoing `labelIds`. -/
def updLabelsPhase (u : JObj) (teamId : Option String)
    (metadata : Except UpstreamError (List Label)) : JObj :=
  let enforcedLabels : Option (List String) :=
    match jget u "labelIds" with
    | some (.arr ids) =>
      if ids.length > 1 then
        match teamId with
        | some _ =>
          match metadata with
          | .ok labels => some (enforceExclusiveChildLabelIds ids labels).1
          | .error _ => none
        | none => none
      else none
    | _ => none
  setIf enforcedLabels.isSome "labelIds" (enforcedLabels.map JVal.arr) u

/-- The payload handed to `issue.update` by `updateIssue`
(src/server/src/linear.ts:558-717): start from the empty object and add
canonical fields only when they change the fetched issue, then apply
milestone resolution (possibly deleting or adding `projectMilestoneId`
and adding `projectId`), the conditional phase-line removal, and the
label exclusivity enforcement.  Each `let u` step mirrors one
conditional assignment of the source. -/
def updateIssueMutationPayload (input : JObj) (issue : IssueSnapshot)
    (milestones : Except UpstreamError (List Milestone))
    (metadata : Except UpstreamError (List Label)) : JObj :=
  let milestoneHint := milestoneHintOf input
  let nextTitle := asStr (jget input "title")
  let nextDescription := asStr (jget input "description")
  let wantsDescriptionUpdate : Bool :=
    match nextDescription with
    | some nd => !(issue.description == some nd)
    | none => false
  let titleForDescription : Option String :=
    match nextTitle with
    | some t => some t
    | none => some issue.title
  let titleStripped : Option String :=
    if wantsDescriptionUpdate && titleForDescription.isSome && nextDescription.isSome
    then stripTitleFromDescription titleForDescription nextDescription
    else nextDescription
  let ext :=
    if wantsDescriptionUpdate then extractPhaseAndStripFromDescription titleStripped
    else (none, titleStripped)
  let phase := ext.1
  let withoutPhase := ext.2
  let priorityV := jget input "priority"
  let normalizedPriority : Option Int :=
    if priorityV.isSome || wantsDescriptionUpdate then
      normalizeIssuePriority (toPValue priorityV) withoutPhase
        (match milestoneHint with | some h => some h | none => phase)
    else none
  let u := ([] : JObj)
  let u := setIf (match nextTitle with | some t => t != issue.title | none => false)
      "title" (nextTitle.map JVal.s) u
  let u := setIf wantsDescriptionUpdate "description" (titleStripped.map JVal.s) u
  let u := setIf
      (match normalizedPriority with
       | some np => !(issue.priority == some np)
       | none => false)
      "priority" (normalizedPriority.map JVal.n) u
  let u := setIf
      (match asStr (jget input "projectId") with
       | some pid => !(issue.projectId == some pid)
       | none => false)
      "projectId" ((asStr (jget input "projectId")).map JVal.s) u
  let u := setIf
      (match asStr (jget input "projectMilestoneId") with
       | some pm => !(issue.projectMilestoneId == some pm)
       | none => false)
      "projectMilestoneId" ((asStr (jget input "projectMilestoneId")).map JVal.s) u
  let u := setIf
      (match asStr (jget input "cycleId") with
       | some c => !(issue.cycleId == some c)
       | none => false)
      "cycleId" ((asStr (jget input "cycleId")).map JVal.s) u
  let u := setIf
      ((jget input "labelIds").isSome &&
        !sameStringArray (jget input "labelIds") issue.labelIds)
      "labelIds" (jget input "labelIds") u
  let u := setIf
      ((jget input "assigneeId").isSome &&
        !(asStr (jget input "assigneeId") == issue.assigneeId))
      "assigneeId" (jget input "assigneeId") u
  let u := setIf
      ((jget input "stateId").isSome &&
        !(asStr (jget input "stateId") == issue.stateId))
      "stateId" (jget input "stateId") u
  let u := setIf (jget input "state").isSome "state" (jget input "state") u
  let effectiveProjectId : Option String :=
    match asStr (jget input "projectId") with
    | some s => if s != "" then some s else issue.projectId
    | none => issue.projectId
  let resolved0 : Option String :=
    match asStr (jget input "projectMilestoneId") with
    | some s => if s != "" then some s else none
    | none => none
  let dropMilestone : Bool := resolved0.isSome && !optTruthy effectiveProjectId
  let resolved1 : Option String := if dropMilestone then none else resolved0
  let milestoneHintResolved := milestoneHintResolvedOf milestoneHint phase
  let matched : Option String :=
    if !optTruthy resolved1 && optTruthy effectiveProjectId &&
        nonBlank milestoneHintResolved then
      match milestones with
      | .ok ms =>
        (findProjectMilestoneMatch ms (milestoneHintResolved.getD "")).map
          Milestone.id
      | .error _ => none
    else none
  updLabelsPhase
    (updDescriptionPhase
      (updMilestonePhase u dropMilestone matched effectiveProjectId
        issue.projectId)
      wantsDescriptionUpdate withoutPhase)
    issue.teamId metadata

theorem hasKey_cacheSet_of_ne {o : JObj} {k k' : String} (v : Option JVal)
    (hne : (k == k') = false) (h : hasKey o k' = false) :
    hasKey (cacheSet o k v) k' = false := by
  induction o with
  | nil => simp [cacheSet, hasKey, hne]
  | cons e t ih =>
    simp only [hasKey, Bool.or_eq_false_iff] at h
    by_cases he : e.1 = k
    · simp [cacheSet, he, hasKey, hne, h.2]
    · simp [cacheSet, he, hasKey, h.1, ih h.2]

theorem hasKey_setIf {o : JObj} {k' : String} (b : Bool) (k : String)
    (v : Option JVal) (hne : (k == k') = false) (h : hasKey o k' = false) :
    hasKey (setIf b k v o) k' = false := by
  unfold setIf
  split
  · exact hasKey_cacheSet_of_ne v hne h
  · exact h

theorem hasKey_filter_ne {o : JObj} {k k' : String} (h : hasKey o k' = false) :
    hasKey (o.filter (fun e => e.1 != k)) k' = false := by
  induction o with
  | nil => simp [hasKey]
  | cons e t ih =>
    simp only [hasKey, Bool.or_eq_false_iff] at h
    rw [List.filter_cons]
    split
    · simp [hasKey, h.1, ih h.2]
    · exact ih h.2

theorem hasKey_deleteIf {o : JObj} {k' : String} (b : Bool) (k : String)
    (h : hasKey o k' = false) : hasKey (deleteIf b k o) k' = false := by
  unfold deleteIf
  split
  · exact hasKey_filter_ne h
  · exact h

theorem hasKey_eq_any (o : JObj) (k : String) :
    hasKey o k = (o.map Prod.fst).any (fun x => x == k) := by
  induction o with
  | nil => rfl
  | cons e t ih => simp [hasKey, List.any_cons, ih]

theorem hasKey_updMilestonePhase {u : JObj} {k : String}
    (dropMilestone : Bool) (matched : Option String)
    (effectiveProjectId issueProjectId : Option String)
    (hne1 : ("projectMilestoneId" == k) = false)
    (hne2 : ("projectId" == k) = false) (h : hasKey u k = false) :
    hasKey (updMilestonePhase u dropMilestone matched effectiveProjectId
      issueProjectId) k = false := by
  unfold updMilestonePhase
  exact hasKey_setIf _ _ _ hne2
    (hasKey_setIf _ _ _ hne1 (hasKey_deleteIf _ _ h))

theorem hasKey_updDescriptionPhase {u : JObj} {k : String}
    (wantsDescriptionUpdate : Bool) (withoutPhase : Option String)
    (hne : ("description" == k) = false) (h : hasKey u k = false) :
    hasKey (updDescriptionPhase u wantsDescriptionUpdate withoutPhase) k =
      false := by
  unfold updDescriptionPhase
  exact hasKey_setIf _ _ _ hne h

theorem hasKey_updLabelsPhase {u : JObj} {k : String} (teamId : Option String)
    (metadata : Except UpstreamError (List Label))
    (hne : ("labelIds" == k) = false) (h : hasKey u k = false) :
    hasKey (updLabelsPhase u teamId metadata) k = false := by
  unfold updLabelsPhase
  exact hasKey_setIf _ _ _ hne h

theorem createProjectMutationPayload_keys (p : JObj) :
    (createProjectMutationPayload p).map Prod.fst =
      ["name", "teamIds", "description", "state", "leadId", "color", "icon",
       "priority"] := rfl

/-- The preview-only helper fields of an action payload. -/
def helperFieldKeys : List String :=
  ["assigneeName", "labelNames", "projectName", "projectMilestoneName",
   "milestoneName", "phase", "leadName"]

/-- C5.  No helper field ever reaches the downstream mutation call: the
payloads that `createIssue`, `updateIssue`, `createProject` and
`updateProject` hand to the Linear client are built from the canonical
fields only (for the project mutations this also excludes the
`title`-as-`name` helper). -/
theorem mutationPayload_no_helper_fields :
    (∀ (p : JObj) (ms : Except UpstreamError (List Milestone))
        (md : Except UpstreamError (List Label)) (k : String),
      k ∈ helperFieldKeys →
      hasKey (createIssueMutationPayload p ms md) k = false)
    ∧ (∀ (input : JObj) (issue : IssueSnapshot)
          (ms : Except UpstreamError (List Milestone))
          (md : Except UpstreamError (List Label)) (k : String),
        k ∈ helperFieldKeys →
        hasKey (updateIssueMutationPayload input issue ms md) k = false)
    ∧ (∀ (p : JObj) (k : String), k ∈ helperFieldKeys ++ ["title"] →
        hasKey (createProjectMutationPayload p) k = false)
    ∧ (∀ (p : JObj) (k : String), k ∈ helperFieldKeys ++ ["title"] →
        hasKey (updateProjectMutationPayload p) k = false) := by
  refine ⟨?_, ?_, ?_, ?_⟩
  · intro p ms md k hk
    fin_cases hk <;>
      (simp only [createIssueMutationPayload]
       apply hasKey_setIf _ _ _ (by decide)
       rw [hasKey_eq_any]
       simp only [List.map_cons, List.map_nil]
       decide)
  · intro input issue ms md k hk
    fin_cases hk <;>
      (simp only [updateIssueMutationPayload]
       apply hasKey_updLabelsPhase _ _ (by decide)
       apply hasKey_updDescriptionPhase _ _ (by decide)
       apply hasKey_updMilestonePhase _ _ _ _ (by decide) (by decide)
       repeat apply hasKey_setIf _ _ _ (by decide)
       rfl)
  · intro p k hk
    rw [hasKey_eq_any, createProjectMutationPayload_keys]
    fin_cases hk <;> decide
  · intro p k hk
    rw [updateProjectMutationPayload, hasKey_eq_any,
      createProjectMutationPayload_keys]
    fin_cases hk <;> decide

/-- A proposal payload carrying helper fields, for the C5 witness. -/
def demoProposal : JObj :=
  [("teamId", some (.s "t1")), ("title", some (.s "Fix login")),
   ("projectName", some (.s "App")), ("phase", some (.s "P1"))]

/-- A project proposal carrying a `title`-as-`name` and a `leadName`
helper, for the C5 witness. -/
def demoProjectProposal : JObj :=
  [("title", some (.s "Roadmap")), ("teamIds", some (.arr ["t1"])),
   ("leadName", some (.s "Ada"))]

/-- Witness for C5: concrete payloads that do carry helper fields lose
them in the constructed mutation payloads. -/
theorem mutationPayload_no_helper_fields_witness :
    hasKey (createIssueMutationPayload demoProposal (.ok []) (.ok []))
        "projectName" = false
      ∧ hasKey (createIssueMutationPayload demoProposal (.ok []) (.ok []))
        "phase" = false
      ∧ hasKey (createProjectMutationPayload demoProjectProposal) "title" = false
      ∧ hasKey (createProjectMutationPayload demoProjectProposal) "leadName" =
        false :=
  ⟨mutationPayload_no_helper_fields.1 demoProposal (.ok []) (.ok [])
      "projectName" (by decide),
   mutationPayload_no_helper_fields.1 demoProposal (.ok []) (.ok [])
      "phase" (by decide),
   mutationPayload_no_helper_fields.2.2.1 demoProjectProposal "title" (by decide),
   mutationPayload_no_helper_fields.2.2.1 demoProjectProposal "leadName"
      (by decide)⟩

end LinearOps
